import Mathlib

/-!
Verification of the glaze JSON read/write dispatch engine
(src/include/glaze/json/read.hpp, src/include/glaze/json/write.hpp).

The C++ handlers are embedded shallowly: the read-side cursor (it, end) becomes
the remaining input as a `List Char` (with the source's null-terminated-buffer
convention mirrored by `curChar`, which yields a NUL sentinel at the end), and
the shared `context` becomes an explicit `Ctx` value threaded through every
handler.  `Ctx.firstError` is ghost instrumentation only: it records the first
value ever assigned to the error slot, is never read by any embedded handler,
and lets theorems talk about whether the first latched error survives.
-/

namespace Glaze

/-- The error enumeration (`error_code`), restricted to the members the
embedded handlers assign. -/
inductive ErrorCode where
  | syntax_error
  | unexpected_end
  | expected_true_or_false
  | expected_bracket
  | invalid_escape
  | u_requires_hex_digits
  | unicode_escape_conversion_failure
  | parse_number_failure
  | unknown_key
  | missing_key
  | no_matching_variant_type
  | key_not_found
  | invalid_nullable_read
  | exceeded_static_array_size
  deriving DecidableEq, Repr

/-- The per-call context: the single error slot, the write-side indentation
level, and the ghost `firstError` field (instrumentation, see the header). -/
structure Ctx where
  error : Option ErrorCode := none
  indentation_level : Nat := 0
  firstError : Option ErrorCode := none
  deriving DecidableEq, Repr

/-- The C++ `ctx.error = e` assignment; the ghost field keeps the first value
ever assigned so theorems can detect overwrites. -/
def Ctx.setError (ctx : Ctx) (e : ErrorCode) : Ctx :=
  { ctx with error := some e, firstError := some (ctx.firstError.getD e) }

/-- `*it` under the null-terminated-buffer convention the source relies on:
reading at the end yields the NUL sentinel. -/
def curChar (l : List Char) : Char := l.headD '\x00'

def isJsonWs (c : Char) : Bool :=
  c == ' ' || c == '\n' || c == '\t' || c == '\r'

/-- Modelled from the spec: `skip_ws` (glaze/util/parse.hpp is not under src/)
"skips insignificant whitespace"; comment-skipping (the `comments` option) is
outside the modelled option set. -/
def skip_ws (ctx : Ctx) : List Char → Ctx × List Char
  | [] => (ctx, [])
  | c :: rest => if isJsonWs c then skip_ws ctx rest else (ctx, c :: rest)

/-- Modelled from the spec: `match<c>` "matches the shape's required opening
token, failing with a syntax error if absent"; on mismatch the cursor does not
advance. -/
def matchChar (c : Char) (ctx : Ctx) (l : List Char) : Ctx × List Char :=
  match l with
  | [] => (ctx.setError .syntax_error, [])
  | d :: rest => if d = c then (ctx, rest) else (ctx.setError .syntax_error, d :: rest)

/-- Modelled from the spec: `match<"lit">` compares the literal in one shot
(memcmp-style) and fails with a syntax error when it is not a prefix. -/
def matchLit (lit : List Char) (ctx : Ctx) (l : List Char) : Ctx × List Char :=
  if lit.isPrefixOf l then (ctx, l.drop lit.length) else (ctx.setError .syntax_error, l)

def isDigit (c : Char) : Bool := '0' ≤ c && c ≤ '9'

/-! ## Decimal integers

`parse_number` and the integer formatter are external primitives (spec §2:
"Low-level numeric text parsing/formatting primitives" are out-of-scope
collaborators); both are modelled from the spec as plain decimal text. -/

/-- The character of the decimal digit `d` (`d < 10`; larger values clamp). -/
def digitChar : Nat → Char
  | 0 => '0' | 1 => '1' | 2 => '2' | 3 => '3' | 4 => '4'
  | 5 => '5' | 6 => '6' | 7 => '7' | 8 => '8' | _ => '9'

/-- Decimal digits of `n`, most significant first, prepended to `acc`;
`fuel` only bounds the recursion (any `fuel > n` is enough). -/
def natCharsCore : Nat → Nat → List Char → List Char
  | 0, _, acc => acc
  | Nat.succ fuel, n, acc =>
    if n < 10 then digitChar n :: acc
    else natCharsCore fuel (n / 10) (digitChar (n % 10) :: acc)

/-- Modelled from the spec: the external integer formatter emits plain
decimal digits. -/
def natChars (n : Nat) : List Char := natCharsCore (n + 1) n []

/-- Modelled from the spec: integer formatting, optional minus sign then
decimal digits. -/
def intChars (i : Int) : List Char :=
  (if i < 0 then ['-'] else []) ++ natChars i.natAbs

/-- Accumulate decimal digits left to right; stops at the first non-digit. -/
def digitsAux (acc : Nat) : List Char → Nat × List Char
  | [] => (acc, [])
  | c :: rest =>
    if isDigit c then digitsAux (acc * 10 + (c.toNat - 48)) rest else (acc, c :: rest)

/-- Modelled from the spec: the external numeric primitive's integer lexer;
`none` (no leading digit) is its failure, consuming nothing. -/
def takeDigitsNat : List Char → Option (Nat × List Char)
  | [] => none
  | c :: rest =>
    if isDigit c then some (digitsAux (c.toNat - 48) rest) else none

/-- Modelled from the spec: `parse_number` for an integer target — optional
minus sign, then at least one decimal digit; on failure the cursor is left
unchanged. -/
def parse_number (l : List Char) : Option (Int × List Char) :=
  if curChar l = '-' then
    match takeDigitsNat l.tail with
    | some (m, r) => some (-(m : Int), r)
    | none => none
  else
    match takeDigitsNat l with
    | some (m, r) => some ((m : Int), r)
    | none => none

/-- `from_json<T> (num_t)` (read.hpp:155-187) with `ws_handled` on (the
whitespace/latched-error prologue skipped, as compiled for tuple and object
member reads): delegate to the numeric primitive, `parse_number_failure` if it
rejects. -/
def from_json_int_wsh (value : Int) (ctx : Ctx) (l : List Char) : Int × Ctx × List Char :=
  match parse_number l with
  | some (v, rest) => (v, ctx, rest)
  | none => (value, ctx.setError .parse_number_failure, l)

/-- `from_json<T> (num_t)` (read.hpp:155-187) with `ws_handled` off and
`quoted` off: skip whitespace, short-circuit on a latched error, then lex. -/
def from_json_int (value : Int) (ctx : Ctx) (l : List Char) : Int × Ctx × List Char :=
  let (ctx, l) := skip_ws ctx l
  if ctx.error.isSome then (value, ctx, l)
  else from_json_int_wsh value ctx l

/-! ## Booleans -/

/-- `from_json<T> (bool_t)` (read.hpp:121-153): on `t`/`f` the destination is
assigned before the rest of the literal is verified. -/
def from_json_bool (value : Bool) (ctx : Ctx) (l : List Char) : Bool × Ctx × List Char :=
  let (ctx, l) := skip_ws ctx l
  if ctx.error.isSome then (value, ctx, l)
  else
    match curChar l with
    | 't' =>
      let l := l.tail
      let value := true
      let (ctx, l) := matchLit ['r', 'u', 'e'] ctx l
      (value, ctx, l)
    | 'f' =>
      let l := l.tail
      let value := false
      let (ctx, l) := matchLit ['a', 'l', 's', 'e'] ctx l
      (value, ctx, l)
    | _ => (value, ctx.setError .expected_true_or_false, l)

/-- `to_json<T> (boolean_like)` (write.hpp:119-132). -/
def to_json_bool (value : Bool) : List Char :=
  if value then ['t', 'r', 'u', 'e'] else ['f', 'a', 'l', 's', 'e']

/-! ## String codec -/

/-- `hex2dec` (read.hpp:190): branchless hex digit to value. -/
def hex2dec (c : Char) : Nat := (c.toNat &&& 0xf) + (c.toNat >>> 6) * 9

/-- `hex4_to_char32` (read.hpp:192-199): assemble four hex digits, most
significant first, with shifted ors. -/
def hex4_to_char32 (h0 h1 h2 h3 : Char) : Nat :=
  hex2dec h3 ||| (hex2dec h2 <<< 4) ||| (hex2dec h1 <<< 8) ||| (hex2dec h0 <<< 12)

/-- `::isxdigit` on the ASCII input bytes. -/
def isxdigit (c : Char) : Bool :=
  ('0' ≤ c && c ≤ '9') || ('a' ≤ c && c ≤ 'f') || ('A' ≤ c && c ≤ 'F')

/-- The `std::codecvt<char32_t, char8_t>` conversion used by
`read_escaped_unicode` (read.hpp:244-254): UTF-8 bytes of a Unicode scalar
value, `none` (`result != ok`) on a surrogate or out-of-range code point. -/
def utf8encode (n : Nat) : Option (List Char) :=
  if n < 0x80 then some [Char.ofNat n]
  else if n < 0x800 then
    some [Char.ofNat (0xC0 ||| (n >>> 6)), Char.ofNat (0x80 ||| (n &&& 0x3F))]
  else if 0xD800 ≤ n ∧ n ≤ 0xDFFF then none
  else if n < 0x10000 then
    some [Char.ofNat (0xE0 ||| (n >>> 12)), Char.ofNat (0x80 ||| ((n >>> 6) &&& 0x3F)),
          Char.ofNat (0x80 ||| (n &&& 0x3F))]
  else if n < 0x110000 then
    some [Char.ofNat (0xF0 ||| (n >>> 18)), Char.ofNat (0x80 ||| ((n >>> 12) &&& 0x3F)),
          Char.ofNat (0x80 ||| ((n >>> 6) &&& 0x3F)), Char.ofNat (0x80 ||| (n &&& 0x3F))]
  else none

/-- `read_escaped_unicode<char>` into an 8-bit string value (read.hpp:201-292,
the `codecvt` branch): four hex digits are required, the resulting code unit is
converted alone through the UTF-8 codec, and only on success does the cursor
advance past the four digits.  There is no combining with a following
low-surrogate escape. -/
def read_escaped_unicode (value : List Char) (ctx : Ctx) (l : List Char) :
    List Char × Ctx × List Char :=
  match l with
  | a :: b :: c :: d :: rest =>
    if isxdigit a && isxdigit b && isxdigit c && isxdigit d then
      let codepoint := hex4_to_char32 a b c d
      match utf8encode codepoint with
      | some bytes => (value ++ bytes, ctx, rest)
      | none => (value, ctx.setError .unicode_escape_conversion_failure, a :: b :: c :: d :: rest)
    else (value, ctx.setError .u_requires_hex_digits, l)
  | _ => (value, ctx.setError .u_requires_hex_digits, l)

/-- Modelled from the spec: `skip_till_escape_or_quote` (glaze/util/parse.hpp
is not under src/) scans to the first `"` or `\`; `none` means the end bound
was reached first (`unexpected_end` at the caller). -/
def skipTillEscapeOrQuote : List Char → Option (List Char × Char × List Char)
  | [] => none
  | c :: rest =>
    if c = '"' ∨ c = '\\' then some ([], c, rest)
    else
      match skipTillEscapeOrQuote rest with
      | none => none
      | some (span, stop, r) => some (c :: span, stop, r)

/-- The `handle_escaped` lambda of `from_json<T> (string_t)`
(read.hpp:320-358), applied to the character after the backslash. -/
def handle_escaped (value : List Char) (ctx : Ctx) (l : List Char) :
    List Char × Ctx × List Char :=
  match l with
  | [] => (value, ctx.setError .invalid_escape, [])
  | c :: rest =>
    if c = '"' ∨ c = '\\' ∨ c = '/' then (value ++ [c], ctx, rest)
    else if c = 'b' then (value ++ ['\x08'], ctx, rest)
    else if c = 'f' then (value ++ ['\x0C'], ctx, rest)
    else if c = 'n' then (value ++ ['\n'], ctx, rest)
    else if c = 'r' then (value ++ ['\x0D'], ctx, rest)
    else if c = 't' then (value ++ ['\t'], ctx, rest)
    else if c = 'u' then read_escaped_unicode value ctx rest
    else (value, ctx.setError .invalid_escape, c :: rest)

/-- The growth loop of `from_json<T> (string_t)` (read.hpp:360-415, the
non-`force_conformance` path): append the span up to the next escape or quote,
finish at a quote, unescape and continue at a backslash.  `fuel` stands in for
the `while (it < end)` meter (every continuing iteration consumes input, so
`l.length + 1` is always enough); at `0` the loop exits as at the end bound. -/
def readStrLoop : Nat → List Char → Ctx → List Char → List Char × Ctx × List Char
  | 0, value, ctx, l => (value, ctx, l)
  | Nat.succ fuel, value, ctx, l =>
    if l.isEmpty then (value, ctx, l)
    else
      match skipTillEscapeOrQuote l with
      | none => (value, ctx.setError .unexpected_end, [])
      | some (span, stop, rest) =>
        if stop = '"' then (value ++ span, ctx, rest)
        else
          let (value2, ctx2, rest2) := handle_escaped (value ++ span) ctx rest
          if ctx2.error.isSome then (value2, ctx2, rest2)
          else readStrLoop fuel value2 ctx2 rest2

/-- `from_json<T> (string_t)` (read.hpp:294-418) with default options:
whitespace, opening quote, then the growth loop starting from a cleared
value. -/
def from_json_string (value : List Char) (ctx : Ctx) (l : List Char) :
    List Char × Ctx × List Char :=
  let (ctx, l) := skip_ws ctx l
  if ctx.error.isSome then (value, ctx, l)
  else
    let (ctx, l) := matchChar '"' ctx l
    if ctx.error.isSome then (value, ctx, l)
    else readStrLoop (l.length + 1) [] ctx l

/-- The escape table of `to_json<T> (str_t)` (write.hpp:208-242): the seven
special characters become two-character escapes, everything else is copied
verbatim. -/
def escape_char (c : Char) : List Char :=
  if c = '"' then ['\\', '"']
  else if c = '\\' then ['\\', '\\']
  else if c = '\x08' then ['\\', 'b']
  else if c = '\x0C' then ['\\', 'f']
  else if c = '\n' then ['\\', 'n']
  else if c = '\x0D' then ['\\', 'r']
  else if c = '\t' then ['\\', 't']
  else [c]

/-- `to_json<T> (str_t)` (write.hpp:191-245): quoted, escaped body. -/
def to_json_string (s : List Char) : List Char :=
  '"' :: (s.flatMap escape_char ++ ['"'])

/-! ## Generic skipping -/

/-- Modelled from the spec: `skip_string` skips a quoted string body (the
opening quote already consumed) through its closing quote, honouring
backslash escapes; reaching the end bound is `unexpected_end`. -/
def skipStringBody (ctx : Ctx) : List Char → Ctx × List Char
  | [] => (ctx.setError .unexpected_end, [])
  | '"' :: rest => (ctx, rest)
  | '\\' :: [] => (ctx.setError .unexpected_end, [])
  | '\\' :: _ :: rest => skipStringBody ctx rest
  | _ :: rest => skipStringBody ctx rest

/-- Modelled from the spec: the scalar part of the generic "skip a value"
scanner — consume up to the next delimiter. -/
def skipScalar (ctx : Ctx) : List Char → Ctx × List Char
  | [] => (ctx, [])
  | c :: rest =>
    if c = ',' ∨ c = '}' ∨ c = ']' ∨ isJsonWs c then (ctx, c :: rest)
    else skipScalar ctx rest

/-- Modelled from the spec: the composite part of the generic "skip a value"
scanner — balanced brackets with strings skipped; the state machine consumes
one character per step (`depth` open brackets, `inStr`/`esc` string state). -/
def skipCompAux : Nat → Bool → Bool → Ctx → List Char → Ctx × List Char
  | _, _, _, ctx, [] => (ctx.setError .unexpected_end, [])
  | depth, true, true, ctx, _ :: rest => skipCompAux depth true false ctx rest
  | depth, true, false, ctx, c :: rest =>
    if c = '\\' then skipCompAux depth true true ctx rest
    else if c = '"' then skipCompAux depth false false ctx rest
    else skipCompAux depth true false ctx rest
  | depth, false, _, ctx, c :: rest =>
    if c = '{' ∨ c = '[' then skipCompAux (depth + 1) false false ctx rest
    else if c = '}' ∨ c = ']' then
      match depth with
      | 0 => (ctx.setError .syntax_error, c :: rest)
      | 1 => (ctx, rest)
      | Nat.succ d => skipCompAux d false false ctx rest
    else if c = '"' then skipCompAux depth true false ctx rest
    else skipCompAux depth false false ctx rest

/-- Modelled from the spec: `skip_value` — "the generic skip-a-value scanner"
dispatching on the first significant character. -/
def skip_value (ctx : Ctx) (l : List Char) : Ctx × List Char :=
  let (ctx, l) := skip_ws ctx l
  if ctx.error.isSome then (ctx, l)
  else
    match curChar l with
    | '"' => skipStringBody ctx l.tail
    | '{' => skipCompAux 1 false false ctx l.tail
    | '[' => skipCompAux 1 false false ctx l.tail
    | _ => skipScalar ctx l

/-! ## Arrays -/

/-- The scan loop of `number_of_array_elements` (read.hpp:932-962): commas
count, strings are skipped, the first `]` returns, the NUL sentinel is
`unexpected_end`, and everything else — nested brackets included — is stepped
over one character at a time.  `fuel` only bounds the recursion (every step
consumes input, so `l.length + 1` is always enough); the `/` comment branch is
outside the modelled option set. -/
def countAux : Nat → Nat → Ctx → List Char → Nat × Ctx
  | 0, _, ctx, _ => (0, ctx.setError .unexpected_end)
  | Nat.succ fuel, count, ctx, l =>
    match l with
    | [] => (0, ctx.setError .unexpected_end)
    | ',' :: rest => countAux fuel (count + 1) ctx rest
    | '"' :: rest =>
      let (ctx2, rest2) := skipStringBody ctx rest
      if ctx2.error.isSome then (0, ctx2) else countAux fuel count ctx2 rest2
    | ']' :: _ => (count, ctx)
    | _ :: rest => countAux fuel count ctx rest

/-- `number_of_array_elements` (read.hpp:921-964): lookahead element pre-count
over a copied cursor, the opening `[` already consumed. -/
def number_of_array_elements (ctx : Ctx) (l : List Char) : Nat × Ctx :=
  let (ctx, l) := skip_ws ctx l
  if ctx.error.isSome then (0, ctx)
  else if curChar l = ']' then (0, ctx)
  else countAux (l.length + 1) 1 ctx l

/-- `value.resize(n)` on a vector-like container of ints: keep a prefix,
default-fill the extension. -/
def resizeList (v : List Int) (n : Nat) : List Int :=
  v.take n ++ List.replicate (n - v.length) 0

/-- `value.resize(n)` for a container of containers. -/
def resizeListL (v : List (List Int)) (n : Nat) : List (List Int) :=
  v.take n ++ List.replicate (n - v.length) []

/-- The element loop of `from_json<T>` for resizeable, non-emplace-backable
containers (read.hpp:987-995): `read` into each element, `skip_ws`, and a `,`
match before every element but the last — with no error check after any of
those calls, exactly as in the source. -/
def resizableIntLoop (readElem : Int → Ctx → List Char → Int × Ctx × List Char) :
    List Int → Ctx → List Char → List Int × Ctx × List Char
  | [], ctx, l => ([], ctx, l)
  | x :: xs, ctx, l =>
    let (x2, ctx, l) := readElem x ctx l
    let (ctx, l) := skip_ws ctx l
    if xs.isEmpty then
      let (xs2, ctx, l) := resizableIntLoop readElem xs ctx l
      (x2 :: xs2, ctx, l)
    else
      let (ctx, l) := matchChar ',' ctx l
      let (xs2, ctx, l) := resizableIntLoop readElem xs ctx l
      (x2 :: xs2, ctx, l)

/-- As `resizableIntLoop`, for elements that are themselves containers. -/
def resizableNestedLoop (readElem : List Int → Ctx → List Char → List Int × Ctx × List Char) :
    List (List Int) → Ctx → List Char → List (List Int) × Ctx × List Char
  | [], ctx, l => ([], ctx, l)
  | x :: xs, ctx, l =>
    let (x2, ctx, l) := readElem x ctx l
    let (ctx, l) := skip_ws ctx l
    if xs.isEmpty then
      let (xs2, ctx, l) := resizableNestedLoop readElem xs ctx l
      (x2 :: xs2, ctx, l)
    else
      let (ctx, l) := matchChar ',' ctx l
      let (xs2, ctx, l) := resizableNestedLoop readElem xs ctx l
      (x2 :: xs2, ctx, l)

/-- `from_json<T>` for `array_t`, resizeable, not emplace-backable
(read.hpp:966-998), with int elements: pre-count, resize, then the unchecked
element loop and the closing bracket match. -/
def from_json_resizable_int (value : List Int) (ctx : Ctx) (l : List Char) :
    List Int × Ctx × List Char :=
  let (ctx, l) := skip_ws ctx l
  if ctx.error.isSome then (value, ctx, l)
  else
    let (ctx, l) := matchChar '[' ctx l
    if ctx.error.isSome then (value, ctx, l)
    else
      let (n, ctx) := number_of_array_elements ctx l
      if ctx.error.isSome then (value, ctx, l)
      else
        let (v2, ctx, l) := resizableIntLoop from_json_int (resizeList value n) ctx l
        let (ctx, l) := matchChar ']' ctx l
        (v2, ctx, l)

/-- `from_json<T>` for `array_t`, resizeable, not emplace-backable
(read.hpp:966-998), with elements that are themselves such containers. -/
def from_json_resizable_nested (value : List (List Int)) (ctx : Ctx) (l : List Char) :
    List (List Int) × Ctx × List Char :=
  let (ctx, l) := skip_ws ctx l
  if ctx.error.isSome then (value, ctx, l)
  else
    let (ctx, l) := matchChar '[' ctx l
    if ctx.error.isSome then (value, ctx, l)
    else
      let (n, ctx) := number_of_array_elements ctx l
      if ctx.error.isSome then (value, ctx, l)
      else
        let (v2, ctx, l) := resizableNestedLoop from_json_resizable_int (resizeListL value n) ctx l
        let (ctx, l) := matchChar ']' ctx l
        (v2, ctx, l)

/-- The overwrite phase of `from_json<T>` for emplace-backable containers
(read.hpp:852-884): read into the existing elements; an early `]` resizes down
and returns (`Bool` = returned early), a stray character is
`expected_bracket`. -/
def ewOverwrite : List Int → List Int → Ctx → List Char →
    List Int × Bool × Ctx × List Char
  | [], acc, ctx, l => (acc, false, ctx, l)
  | x :: xs, acc, ctx, l =>
    let (v, ctx, l) := from_json_int_wsh x ctx l
    if ctx.error.isSome then (acc ++ v :: xs, true, ctx, l)
    else
      let (ctx, l) := skip_ws ctx l
      if ctx.error.isSome then (acc ++ v :: xs, true, ctx, l)
      else if curChar l = ',' then
        let l := l.tail
        let (ctx, l) := skip_ws ctx l
        if ctx.error.isSome then (acc ++ v :: xs, true, ctx, l)
        else ewOverwrite xs (acc ++ [v]) ctx l
      else if curChar l = ']' then (acc ++ [v], true, ctx, l.tail)
      else (acc ++ v :: xs, true, ctx.setError .expected_bracket, l)

/-- The growing phase of `from_json<T>` for emplace-backable containers
(read.hpp:887-910): emplace a default element, read into it, then `,`
continues and `]` finishes; a stray character is `expected_bracket`.  `fuel`
stands in for the `while (it < end)` meter (every continuing iteration
consumes input, so `l.length + 1` is always enough); at `0` the loop exits
silently as at the end bound. -/
def ewGrow : Nat → List Int → Ctx → List Char → List Int × Ctx × List Char
  | 0, acc, ctx, l => (acc, ctx, l)
  | Nat.succ fuel, acc, ctx, l =>
    if l.isEmpty then (acc, ctx, l)
    else
      let (v, ctx2, l2) := from_json_int_wsh 0 ctx l
      if ctx2.error.isSome then (acc ++ [v], ctx2, l2)
      else
        let (ctx3, l3) := skip_ws ctx2 l2
        if ctx3.error.isSome then (acc ++ [v], ctx3, l3)
        else if curChar l3 = ',' then
          let l4 := l3.tail
          let (ctx5, l5) := skip_ws ctx3 l4
          if ctx5.error.isSome then (acc ++ [v], ctx5, l5)
          else ewGrow fuel (acc ++ [v]) ctx5 l5
        else if curChar l3 = ']' then (acc ++ [v], ctx3, l3.tail)
        else (acc ++ [v], ctx3.setError .expected_bracket, l3)

/-- `from_json<T>` for `array_t`, emplace-backable and resizeable
(read.hpp:819-915), with int elements: `[`, empty-array fast path (clearing
the container), the overwrite phase over existing elements, then growth. -/
def from_json_emplace_int (value : List Int) (ctx : Ctx) (l : List Char) :
    List Int × Ctx × List Char :=
  let (ctx, l) := skip_ws ctx l
  if ctx.error.isSome then (value, ctx, l)
  else
    let (ctx, l) := matchChar '[' ctx l
    if ctx.error.isSome then (value, ctx, l)
    else
      let (ctx, l) := skip_ws ctx l
      if ctx.error.isSome then (value, ctx, l)
      else if curChar l = ']' then ([], ctx, l.tail)
      else
        let (acc, stopped, ctx, l) := ewOverwrite value [] ctx l
        if stopped then (acc, ctx, l)
        else ewGrow (l.length + 1) acc ctx l

/-- `to_json<T> (array_t)` (write.hpp:299-341) without prettify, int
elements: `[`, the first element, `,` before each further element, `]`. -/
def to_json_array_int (value : List Int) : List Char :=
  '[' :: ((match value with
    | [] => []
    | x :: xs => intChars x ++ xs.flatMap (fun y => ',' :: intChars y)) ++ [']'])

/-- `to_json<T> (array_t)` (write.hpp:299-341) without prettify, container
elements. -/
def to_json_array_nested (value : List (List Int)) : List Char :=
  '[' :: ((match value with
    | [] => []
    | x :: xs => to_json_array_int x ++ xs.flatMap (fun y => ',' :: to_json_array_int y)) ++ [']'])

/-! ## Tuples -/

/-- One non-first iteration of the `for_each` body of `from_json<T>` for
tuples (read.hpp:1029-1059): an early `]` skips the iteration, otherwise `,`
then the element with `ws_handled` on; every error return exits only this
iteration, as the lambda's `return` does. -/
def tuple_iter (cur : Int) (ctx : Ctx) (l : List Char) : Int × Ctx × List Char :=
  if curChar l = ']' then (cur, ctx, l)
  else
    let (ctx, l) := matchChar ',' ctx l
    if ctx.error.isSome then (cur, ctx, l)
    else
      let (ctx, l) := skip_ws ctx l
      if ctx.error.isSome then (cur, ctx, l)
      else
        let (v, ctx, l) := from_json_int_wsh cur ctx l
        if ctx.error.isSome then (v, ctx, l)
        else
          let (ctx, l) := skip_ws ctx l
          (v, ctx, l)

/-- The first (`I = 0`) iteration: as `tuple_iter` without the comma. -/
def tuple_iter0 (cur : Int) (ctx : Ctx) (l : List Char) : Int × Ctx × List Char :=
  if curChar l = ']' then (cur, ctx, l)
  else
    let (v, ctx, l) := from_json_int_wsh cur ctx l
    if ctx.error.isSome then (v, ctx, l)
    else
      let (ctx, l) := skip_ws ctx l
      (v, ctx, l)

/-- `from_json<T>` for `tuple_t`/`is_std_tuple` with three int fields
(read.hpp:1000-1063): `[`, the three `for_each` iterations, then the closing
bracket match. -/
def from_json_tuple3 (value : Int × Int × Int) (ctx : Ctx) (l : List Char) :
    (Int × Int × Int) × Ctx × List Char :=
  let (ctx, l) := skip_ws ctx l
  if ctx.error.isSome then (value, ctx, l)
  else
    let (ctx, l) := matchChar '[' ctx l
    if ctx.error.isSome then (value, ctx, l)
    else
      let (ctx, l) := skip_ws ctx l
      if ctx.error.isSome then (value, ctx, l)
      else
        let (e0, ctx, l) := tuple_iter0 value.1 ctx l
        let (e1, ctx, l) := tuple_iter value.2.1 ctx l
        let (e2, ctx, l) := tuple_iter value.2.2 ctx l
        let (ctx, l) := matchChar ']' ctx l
        ((e0, e1, e2), ctx, l)

/-- `to_json<T>` for tuples (write.hpp:594-642) without prettify, three int
fields. -/
def to_json_tuple3 (value : Int × Int × Int) : List Char :=
  '[' :: (intChars value.1 ++ ',' :: intChars value.2.1 ++ ',' :: intChars value.2.2 ++ [']'])

/-! ## Nullable -/

/-- `to_json<T> (nullable_t)` (write.hpp:399-411): the contained value, or
the `null` literal. -/
def to_json_nullable_int : Option Int → List Char
  | none => ['n', 'u', 'l', 'l']
  | some n => intChars n

/-- `from_json<T> (nullable_t)` (read.hpp:1800-1842) over `optional<int>`:
`null` resets the value; otherwise an empty value is default-constructed and
the inner shape is read into it. -/
def from_json_nullable_int (value : Option Int) (ctx : Ctx) (l : List Char) :
    Option Int × Ctx × List Char :=
  let (ctx, l) := skip_ws ctx l
  if ctx.error.isSome then (value, ctx, l)
  else if curChar l = 'n' then
    let l := l.tail
    let (ctx, l) := matchLit ['u', 'l', 'l'] ctx l
    if ctx.error.isSome then (value, ctx, l)
    else (none, ctx, l)
  else
    let inner := value.getD 0
    let (v, ctx, l) := from_json_int inner ctx l
    (some v, ctx, l)

/-! ## Object keys -/

/-- Modelled from the spec: `parse_unescaped_key` — the "generic bounded scan
for the first unescaped quote", returning the key text with the cursor just
past the closing quote. -/
def parse_unescaped_key (ctx : Ctx) : List Char → List Char × Ctx × List Char
  | [] => ([], ctx.setError .unexpected_end, [])
  | c :: rest =>
    if c = '"' then ([], ctx, rest)
    else
      let (k, ctx2, r) := parse_unescaped_key ctx rest
      (c :: k, ctx2, r)

/-- `parse_object_key` (read.hpp:1254-1322) as compiled for escape-free keys
without `error_on_unknown_keys` (the spec's default unknown-key policy is
lenient): optional whitespace skip, the opening quote, then the generic
unescaped-key fallback. -/
def parse_object_key (wsHandled : Bool) (ctx : Ctx) (l : List Char) :
    List Char × Ctx × List Char :=
  let (ctx, l) :=
    if wsHandled then (ctx, l)
    else skip_ws ctx l
  if ctx.error.isSome then ([], ctx, l)
  else
    let (ctx, l) := matchChar '"' ctx l
    if ctx.error.isSome then ([], ctx, l)
    else parse_unescaped_key ctx l

/-- The `stats.length_range == 0` strategy of `parse_object_key`
(read.hpp:1291-1296): the key is exactly the fixed span, validated by
matching the following quote. -/
def key_fixed_span (len : Nat) (ctx : Ctx) (l : List Char) :
    List Char × Ctx × List Char :=
  let key := l.take len
  let (ctx, l2) := matchChar '"' ctx (l.drop len)
  (key, ctx, l2)

/-- The scan of the `stats.length_range < 4` strategy (read.hpp:1297-1309):
from position `pos`, try `remaining` positions for the closing quote. -/
def shortScanAux (l : List Char) : Nat → Nat → Ctx → List Char × Ctx × List Char
  | _, 0, ctx => ([], ctx.setError .key_not_found, l)
  | pos, Nat.succ remaining, ctx =>
    if curChar (l.drop pos) = '"' then (l.take pos, ctx, l.drop (pos + 1))
    else shortScanAux l (pos + 1) remaining ctx

/-- The `stats.length_range < 4` strategy of `parse_object_key`
(read.hpp:1297-1309): skip the minimum length, then scan `range + 1`
positions for the quote. -/
def key_short_scan (minLen range : Nat) (ctx : Ctx) (l : List Char) :
    List Char × Ctx × List Char :=
  shortScanAux l minLen (range + 1) ctx

/-- Modelled from the spec: `parse_key_cx` (glaze/util/parse.hpp is not under
src/) — the "bounded compile-time-specialized scan" for larger ranges, over
the window `[min_length, min_length + length_range]`. -/
def parse_key_cx (minLen range : Nat) (ctx : Ctx) (l : List Char) :
    List Char × Ctx × List Char :=
  shortScanAux l minLen (range + 1) ctx

/-! ## Concrete object shapes

`VarA`/`VarB` are the two object alternatives of the union claim; `Obj3` is a
three-member object of nullable ints for the writer claims. -/

structure VarA where
  x : Int
  deriving DecidableEq, Repr

structure VarB where
  y : Int
  deriving DecidableEq, Repr

/-- The `while (true)` loop of `from_json<T> (glaze_object_t)`
(read.hpp:1352-1463) for `VarB` with the default (lenient, no
missing-key-checking, untagged) options: `}` completes, a comma separates
entries after the first, known keys read the member (`ws_handled` on),
unknown keys are skipped.  `fuel` only bounds the loop (`l.length + 1` is
always enough; the `0` case is the source's `unreachable()`). -/
def from_json_VarB_loop : Nat → VarB → Bool → Ctx → List Char → VarB × Ctx × List Char
  | 0, value, _, ctx, l => (value, ctx.setError .unexpected_end, l)
  | Nat.succ fuel, value, first, ctx, l =>
    if curChar l = '}' then (value, ctx, l.tail)
    else
      let body := fun (ctx : Ctx) (l : List Char) =>
        let (key, ctx1, l1) := parse_object_key true ctx l
        if ctx1.error.isSome then (value, ctx1, l1)
        else
          let (ctx2, l2) := skip_ws ctx1 l1
          if ctx2.error.isSome then (value, ctx2, l2)
          else
            let (ctx3, l3) := matchChar ':' ctx2 l2
            if ctx3.error.isSome then (value, ctx3, l3)
            else
              let (ctx4, l4) := skip_ws ctx3 l3
              if ctx4.error.isSome then (value, ctx4, l4)
              else if key = ['y'] then
                let (v, ctx5, l5) := from_json_int_wsh value.y ctx4 l4
                if ctx5.error.isSome then (VarB.mk v, ctx5, l5)
                else
                  let (ctx6, l6) := skip_ws ctx5 l5
                  if ctx6.error.isSome then (VarB.mk v, ctx6, l6)
                  else from_json_VarB_loop fuel (VarB.mk v) false ctx6 l6
              else
                let (ctx5, l5) := skip_value ctx4 l4
                if ctx5.error.isSome then (value, ctx5, l5)
                else
                  let (ctx6, l6) := skip_ws ctx5 l5
                  if ctx6.error.isSome then (value, ctx6, l6)
                  else from_json_VarB_loop fuel value false ctx6 l6
      if first then body ctx l
      else
        let (ctxa, la) := matchChar ',' ctx l
        if ctxa.error.isSome then (value, ctxa, la)
        else
          let (ctxb, lb) := skip_ws ctxa la
          if ctxb.error.isSome then (value, ctxb, lb)
          else body ctxb lb

/-- `from_json<T> (glaze_object_t)` (read.hpp:1324-1466) for `VarB`:
opening brace (unless already handled), whitespace, then the entry loop. -/
def from_json_VarB (openingHandled : Bool) (value : VarB) (ctx : Ctx) (l : List Char) :
    VarB × Ctx × List Char :=
  if openingHandled then
    let (ctx, l) := skip_ws ctx l
    if ctx.error.isSome then (value, ctx, l)
    else from_json_VarB_loop (l.length + 1) value true ctx l
  else
    let (ctx, l) := skip_ws ctx l
    if ctx.error.isSome then (value, ctx, l)
    else
      let (ctx, l) := matchChar '{' ctx l
      if ctx.error.isSome then (value, ctx, l)
      else
        let (ctx, l) := skip_ws ctx l
        if ctx.error.isSome then (value, ctx, l)
        else from_json_VarB_loop (l.length + 1) value true ctx l

/-- As `from_json_VarB_loop`, for `VarA` (field name `x`). -/
def from_json_VarA_loop : Nat → VarA → Bool → Ctx → List Char → VarA × Ctx × List Char
  | 0, value, _, ctx, l => (value, ctx.setError .unexpected_end, l)
  | Nat.succ fuel, value, first, ctx, l =>
    if curChar l = '}' then (value, ctx, l.tail)
    else
      let body := fun (ctx : Ctx) (l : List Char) =>
        let (key, ctx1, l1) := parse_object_key true ctx l
        if ctx1.error.isSome then (value, ctx1, l1)
        else
          let (ctx2, l2) := skip_ws ctx1 l1
          if ctx2.error.isSome then (value, ctx2, l2)
          else
            let (ctx3, l3) := matchChar ':' ctx2 l2
            if ctx3.error.isSome then (value, ctx3, l3)
            else
              let (ctx4, l4) := skip_ws ctx3 l3
              if ctx4.error.isSome then (value, ctx4, l4)
              else if key = ['x'] then
                let (v, ctx5, l5) := from_json_int_wsh value.x ctx4 l4
                if ctx5.error.isSome then (VarA.mk v, ctx5, l5)
                else
                  let (ctx6, l6) := skip_ws ctx5 l5
                  if ctx6.error.isSome then (VarA.mk v, ctx6, l6)
                  else from_json_VarA_loop fuel (VarA.mk v) false ctx6 l6
              else
                let (ctx5, l5) := skip_value ctx4 l4
                if ctx5.error.isSome then (value, ctx5, l5)
                else
                  let (ctx6, l6) := skip_ws ctx5 l5
                  if ctx6.error.isSome then (value, ctx6, l6)
                  else from_json_VarA_loop fuel value false ctx6 l6
      if first then body ctx l
      else
        let (ctxa, la) := matchChar ',' ctx l
        if ctxa.error.isSome then (value, ctxa, la)
        else
          let (ctxb, lb) := skip_ws ctxa la
          if ctxb.error.isSome then (value, ctxb, lb)
          else body ctxb lb

/-- `from_json<T> (glaze_object_t)` (read.hpp:1324-1466) for `VarA`. -/
def from_json_VarA (openingHandled : Bool) (value : VarA) (ctx : Ctx) (l : List Char) :
    VarA × Ctx × List Char :=
  if openingHandled then
    let (ctx, l) := skip_ws ctx l
    if ctx.error.isSome then (value, ctx, l)
    else from_json_VarA_loop (l.length + 1) value true ctx l
  else
    let (ctx, l) := skip_ws ctx l
    if ctx.error.isSome then (value, ctx, l)
    else
      let (ctx, l) := matchChar '{' ctx l
      if ctx.error.isSome then (value, ctx, l)
      else
        let (ctx, l) := skip_ws ctx l
        if ctx.error.isSome then (value, ctx, l)
        else from_json_VarA_loop (l.length + 1) value true ctx l

/-- `to_json<T> (glaze_object_t)` (write.hpp:747-861) for `VarB` without
prettify: the precompiled quoted key, then the int member. -/
def to_json_VarB (v : VarB) : List Char :=
  '{' :: '"' :: 'y' :: '"' :: ':' :: (intChars v.y ++ ['}'])

/-! ## The variant (union) resolver -/

/-- `std::variant<VarA, VarB>`: two object alternatives with fields `x` and
`y`, auto-deducible by key. -/
inductive VarAB where
  | a (v : VarA)
  | b (v : VarB)
  deriving DecidableEq, Repr

/-- `value.index()`. -/
def VarAB.index : VarAB → Nat
  | .a _ => 0
  | .b _ => 1

/-- `make_variant_deduction_map<T>`: a plausible key to the bitset of
alternatives declaring it (`x` → first only, `y` → second only). -/
def variant_deduction (key : List Char) : Option (Bool × Bool) :=
  if key = ['x'] then some (true, false)
  else if key = ['y'] then some (false, true)
  else none

/-- The key-scanning loop of `from_json<T> (is_variant)` for multiple object
alternatives (read.hpp:1552-1658), untagged and with the spec's lenient
unknown-key default: intersect the possible-alternatives bitset per key, fail
with `no_matching_variant_type` when it empties (or when `}` ends the scan),
and on a unique survivor rewind to `start` and re-parse as that alternative
with the opening handled.  `fuel` only bounds the loop (`l.length + 1` is
always enough; the `0` case cannot be reached then). -/
def variantLoop : Nat → VarAB → Ctx → List Char → List Char → Bool × Bool →
    VarAB × Ctx × List Char
  | 0, value, ctx, _, l, _ => (value, ctx.setError .unexpected_end, l)
  | Nat.succ fuel, value, ctx, start, l, possible =>
    if curChar l = '}' then (value, ctx.setError .no_matching_variant_type, l)
    else
      let (ctx, l) :=
        if l = start then (ctx, l)
        else matchChar ',' ctx l
      if ctx.error.isSome then (value, ctx, l)
      else
        let (key, ctx, l) := parse_object_key false ctx l
        if ctx.error.isSome then (value, ctx, l)
        else
          let possible :=
            match variant_deduction key with
            | some d => (possible.1 && d.1, possible.2 && d.2)
            | none => possible
          let matching := (if possible.1 then 1 else 0) + (if possible.2 then 1 else 0)
          if matching = 0 then (value, ctx.setError .no_matching_variant_type, l)
          else if matching = 1 then
            if possible.1 then
              let v0 : VarA :=
                match value with
                | .a w => w
                | .b _ => VarA.mk 0
              let (w, ctx, l) := from_json_VarA true v0 ctx start
              (.a w, ctx, l)
            else
              let v0 : VarB :=
                match value with
                | .b w => w
                | .a _ => VarB.mk 0
              let (w, ctx, l) := from_json_VarB true v0 ctx start
              (.b w, ctx, l)
          else
            let (ctx, l) := skip_ws ctx l
            if ctx.error.isSome then (value, ctx, l)
            else
              let (ctx, l) := matchChar ':' ctx l
              if ctx.error.isSome then (value, ctx, l)
              else
                let (ctx, l) := skip_ws ctx l
                if ctx.error.isSome then (value, ctx, l)
                else
                  let (ctx, l) := skip_value ctx l
                  if ctx.error.isSome then (value, ctx, l)
                  else
                    let (ctx, l) := skip_ws ctx l
                    if ctx.error.isSome then (value, ctx, l)
                    else variantLoop fuel value ctx start l possible

/-- `from_json<T> (is_variant)` (read.hpp:1513-1736) for
`std::variant<VarA, VarB>`: auto-deducible, so the first significant
character dispatches; `{` enters the multi-object key deduction, every other
shape class is empty here and fails with `no_matching_variant_type` (the NUL
sentinel is `unexpected_end`). -/
def from_json_variant (value : VarAB) (ctx : Ctx) (l : List Char) :
    VarAB × Ctx × List Char :=
  let (ctx, l) := skip_ws ctx l
  if ctx.error.isSome then (value, ctx, l)
  else
    match curChar l with
    | '\x00' => (value, ctx.setError .unexpected_end, l)
    | '{' =>
      let l := l.tail
      let (ctx, l) := skip_ws ctx l
      if ctx.error.isSome then (value, ctx, l)
      else variantLoop (l.length + 1) value ctx l l (true, true)
    | '[' => (value, ctx.setError .no_matching_variant_type, l)
    | '"' => (value, ctx.setError .no_matching_variant_type, l)
    | 't' => (value, ctx.setError .no_matching_variant_type, l)
    | 'f' => (value, ctx.setError .no_matching_variant_type, l)
    | 'n' => (value, ctx.setError .no_matching_variant_type, l)
    | _ => (value, ctx.setError .no_matching_variant_type, l)

/-! ## Map and object writers (skip_null_members) -/

/-- The `write_pair` lambda of `to_json<T> (map_t)` (write.hpp:357-372)
without prettify, for string keys and nullable int values. -/
def write_pair (p : List Char × Option Int) : List Char :=
  to_json_string p.1 ++ ':' :: to_json_nullable_int p.2

/-- The tail loop of `to_json<T> (map_t)` (write.hpp:377-388): entries after
the first are skipped (with their separator) when null and
`skip_null_members` is set. -/
def mapRest (skipNull : Bool) : List (List Char × Option Int) → List Char
  | [] => []
  | p :: rest =>
    if skipNull && p.2.isNone then mapRest skipNull rest
    else ',' :: (write_pair p ++ mapRest skipNull rest)

/-- `to_json<T> (map_t)` (write.hpp:343-397) without prettify: braces around
nothing for an empty map; otherwise the first pair is written unconditionally
and the tail loop handles the rest. -/
def to_json_map (skipNull : Bool) (m : List (List Char × Option Int)) : List Char :=
  '{' :: ((match m with
    | [] => []
    | p :: rest => write_pair p ++ mapRest skipNull rest) ++ ['}'])

/-- A three-member object of nullable ints (fields `a`, `b`, `c`) for the
`glaze_object_t` writer. -/
structure Obj3 where
  a : Option Int
  b : Option Int
  c : Option Int
  deriving DecidableEq, Repr

/-- One member as the object writer emits it: precompiled quoted key, `:`,
then the member value. -/
def obj3_member (name : List Char) (val : Option Int) : List Char :=
  '"' :: (name ++ '"' :: ':' :: to_json_nullable_int val)

/-- The `for_each` body of `to_json<T> (glaze_object_t)` (write.hpp:767-853)
without prettify/comments: a null member is skipped entirely under
`skip_null_members`; otherwise the `first` flag decides the separator. -/
def obj_write_step (skipNull : Bool) (st : Bool × List Char)
    (m : List Char × Option Int) : Bool × List Char :=
  if skipNull && m.2.isNone then st
  else (false, st.2 ++ (if st.1 then [] else [',']) ++ obj3_member m.1 m.2)

/-- `to_json<T> (glaze_object_t)` (write.hpp:747-861) for `Obj3` without
prettify: fold the member steps from `first = true`, close the brace. -/
def to_json_Obj3 (skipNull : Bool) (v : Obj3) : List Char :=
  let st := [(['a'], v.a), (['b'], v.b), (['c'], v.c)].foldl
    (obj_write_step skipNull) (true, ['{'])
  st.2 ++ ['}']

/-! ## Prettified writers -/

/-- `dumpn<Opts.indentation_char>(n, ...)`. -/
def dumpn (c : Char) (n : Nat) : List Char := List.replicate n c

/-- `to_json<T> (array_t)` (write.hpp:299-341) with prettify, int elements:
the indentation level is incremented after `[`; for a nonempty body it is
decremented before the newline preceding `]`, for an empty body the
decrement-bearing branch is never entered. -/
def to_json_array_int_pretty (width : Nat) (ic : Char) (value : List Int)
    (ctx : Ctx) (out : List Char) : List Char × Ctx :=
  let out := out ++ ['[']
  let ctx := { ctx with indentation_level := ctx.indentation_level + width }
  let out := out ++ '\n' :: dumpn ic ctx.indentation_level
  match value with
  | [] => (out ++ [']'], ctx)
  | x :: xs =>
    let out := out ++ intChars x
    let out := xs.foldl
      (fun o y => o ++ ',' :: '\n' :: (dumpn ic ctx.indentation_level ++ intChars y)) out
    let ctx := { ctx with indentation_level := ctx.indentation_level - width }
    let out := out ++ '\n' :: dumpn ic ctx.indentation_level
    (out ++ [']'], ctx)

/-- One map pair under prettify: key, `:`, a space, the int value. -/
def write_pair_pretty (p : List Char × Int) : List Char :=
  to_json_string p.1 ++ ':' :: ' ' :: intChars p.2

/-- `to_json<T> (map_t)` (write.hpp:343-397) with prettify, string keys and
int values: same increment/decrement placement as the array writer. -/
def to_json_map_pretty (width : Nat) (ic : Char) (value : List (List Char × Int))
    (ctx : Ctx) (out : List Char) : List Char × Ctx :=
  let out := out ++ ['{']
  let ctx := { ctx with indentation_level := ctx.indentation_level + width }
  let out := out ++ '\n' :: dumpn ic ctx.indentation_level
  match value with
  | [] => (out ++ ['}'], ctx)
  | p :: ps =>
    let out := out ++ write_pair_pretty p
    let out := ps.foldl
      (fun o q => o ++ ',' :: '\n' :: (dumpn ic ctx.indentation_level ++ write_pair_pretty q)) out
    let ctx := { ctx with indentation_level := ctx.indentation_level - width }
    let out := out ++ '\n' :: dumpn ic ctx.indentation_level
    (out ++ ['}'], ctx)

/-- The uppercase hex digit character of `d < 16` (larger values clamp). -/
def hexUpper : Nat → Char
  | 0 => '0' | 1 => '1' | 2 => '2' | 3 => '3' | 4 => '4'
  | 5 => '5' | 6 => '6' | 7 => '7' | 8 => '8' | 9 => '9'
  | 10 => 'A' | 11 => 'B' | 12 => 'C' | 13 => 'D' | 14 => 'E' | _ => 'F'

/-- The four uppercase hex digits of `v < 0x10000`, most significant first —
the text a `\uXXXX` escape carries for code unit `v`. -/
def hexUpper4 (v : Nat) : List Char :=
  [hexUpper (v / 4096 % 16), hexUpper (v / 256 % 16), hexUpper (v / 16 % 16), hexUpper (v % 16)]

/-! # Theorems

Shared helper lemmas first, then one theorem (with witness or counterexample
where required) per claim. -/

theorem skip_ws_nil (ctx : Ctx) : skip_ws ctx [] = (ctx, []) := rfl

theorem skip_ws_cons_not (ctx : Ctx) {c : Char} (h : isJsonWs c = false) (l : List Char) :
    skip_ws ctx (c :: l) = (ctx, c :: l) := by
  simp [skip_ws, h]

theorem digitChar_spec :
    ∀ d < 10, isDigit (digitChar d) = true ∧ (digitChar d).toNat - 48 = d := by
  decide

theorem digitChar_facts :
    ∀ d < 10, isJsonWs (digitChar d) = false ∧ digitChar d ≠ ']' ∧ digitChar d ≠ '}' ∧
      digitChar d ≠ 'n' ∧ digitChar d ≠ '\x00' ∧ digitChar d ≠ '{' ∧ digitChar d ≠ '[' ∧
      digitChar d ≠ '"' ∧ digitChar d ≠ 't' ∧ digitChar d ≠ 'f' ∧ digitChar d ≠ ',' ∧
      digitChar d ≠ '-' := by
  decide

theorem natCharsCore_fuel : ∀ n, ∀ f1 f2 acc, n < f1 → n < f2 →
    natCharsCore f1 n acc = natCharsCore f2 n acc := by
  intro n
  induction n using Nat.strongRecOn with
  | _ n ih =>
    intro f1 f2 acc h1 h2
    match f1, f2 with
    | g1 + 1, g2 + 1 =>
      by_cases hn : n < 10
      · simp [natCharsCore, hn]
      · simp only [natCharsCore, if_neg hn]
        exact ih (n / 10) (by omega) g1 g2 _ (by omega) (by omega)

theorem natCharsCore_append : ∀ f n acc, n < f →
    natCharsCore f n acc = natCharsCore f n [] ++ acc := by
  intro f
  induction f with
  | zero => omega
  | succ g ih =>
    intro n acc hn
    by_cases h : n < 10
    · simp [natCharsCore, h]
    · simp only [natCharsCore, if_neg h]
      rw [ih (n / 10) _ (by omega), ih (n / 10) [digitChar (n % 10)] (by omega)]
      simp

theorem natChars_step (n : Nat) :
    natChars n = if n < 10 then [digitChar n]
      else natChars (n / 10) ++ [digitChar (n % 10)] := by
  by_cases h : n < 10
  · simp [natChars, natCharsCore, h]
  · rw [if_neg h]
    have h1 : natChars n = natCharsCore n (n / 10) [digitChar (n % 10)] := by
      simp [natChars, natCharsCore, h]
    rw [h1, natCharsCore_append n (n / 10) _ (by omega),
      natCharsCore_fuel (n / 10) n (n / 10 + 1) [] (by omega) (by omega)]
    rfl

theorem natChars_head : ∀ n, ∃ d, d < 10 ∧ ∃ cs, natChars n = digitChar d :: cs := by
  intro n
  induction n using Nat.strongRecOn with
  | _ n ih =>
    rw [natChars_step]
    by_cases h : n < 10
    · exact ⟨n, h, [], by simp [h]⟩
    · obtain ⟨d, hd, cs, hcs⟩ := ih (n / 10) (by omega)
      exact ⟨d, hd, cs ++ [digitChar (n % 10)], by simp [h, hcs]⟩

theorem natChars_ne_nil (n : Nat) : natChars n ≠ [] := by
  obtain ⟨d, _, cs, hcs⟩ := natChars_head n
  simp [hcs]

theorem natChars_all_digits : ∀ n, ∀ c ∈ natChars n, isDigit c = true := by
  intro n
  induction n using Nat.strongRecOn with
  | _ n ih =>
    intro c hc
    rw [natChars_step] at hc
    by_cases h : n < 10
    · simp [h] at hc
      exact hc ▸ (digitChar_spec n h).1
    · simp [h] at hc
      rcases hc with hc | hc
      · exact ih (n / 10) (by omega) c hc
      · exact hc ▸ (digitChar_spec (n % 10) (by omega)).1

theorem digitsAux_stop (acc : Nat) (rest : List Char) (h : isDigit (curChar rest) = false) :
    digitsAux acc rest = (acc, rest) := by
  cases rest with
  | nil => rfl
  | cons c r => simp [digitsAux, curChar] at h ⊢; simp [h]

theorem digitsAux_run : ∀ (ds : List Char), (∀ c ∈ ds, isDigit c = true) →
    ∀ acc (rest : List Char), isDigit (curChar rest) = false →
    digitsAux acc (ds ++ rest) =
      (ds.foldl (fun a c => a * 10 + (c.toNat - 48)) acc, rest) := by
  intro ds
  induction ds with
  | nil =>
    intro _ acc rest h
    simpa using digitsAux_stop acc rest h
  | cons d ds ih =>
    intro hds acc rest h
    have hd : isDigit d = true := hds d (by simp)
    simp only [List.cons_append, digitsAux, hd, if_pos, List.append_eq]
    rw [ih (fun c hc => hds c (by simp [hc])) _ rest h]
    simp

theorem natChars_foldl : ∀ n acc,
    (natChars n).foldl (fun a c => a * 10 + (c.toNat - 48)) acc =
      acc * 10 ^ (natChars n).length + n := by
  intro n
  induction n using Nat.strongRecOn with
  | _ n ih =>
    intro acc
    rw [natChars_step]
    by_cases h : n < 10
    · simp [h, (digitChar_spec n h).2]
    · simp only [if_neg h, List.foldl_append, List.foldl_cons, List.foldl_nil,
        List.length_append, List.length_cons, List.length_nil]
      rw [ih (n / 10) (by omega) acc, (digitChar_spec (n % 10) (by omega)).2]
      have hpow : 10 ^ ((natChars (n / 10)).length + (0 + 1)) =
          10 ^ (natChars (n / 10)).length * 10 := by
        rw [pow_succ]
      rw [hpow, ← mul_assoc]
      generalize (10 : Nat) ^ (natChars (n / 10)).length = P
      generalize acc * P = Q
      omega

theorem takeDigitsNat_natChars (n : Nat) (rest : List Char)
    (h : isDigit (curChar rest) = false) :
    takeDigitsNat (natChars n ++ rest) = some (n, rest) := by
  obtain ⟨d, hd, cs, hcs⟩ := natChars_head n
  have hds : ∀ c ∈ cs, isDigit c = true := by
    intro c hc
    exact natChars_all_digits n c (by simp [hcs, hc])
  have hfold := natChars_foldl n 0
  rw [hcs] at hfold
  simp only [List.foldl_cons] at hfold
  rw [hcs]
  simp only [List.cons_append, takeDigitsNat, (digitChar_spec d hd).1, if_pos]
  rw [digitsAux_run cs hds _ rest h]
  rw [(digitChar_spec d hd).2] at hfold ⊢
  simp at hfold
  rw [hfold]

theorem intChars_head : ∀ n : Int, ∃ c cs, intChars n = c :: cs ∧
    (c = '-' ∨ ∃ d, d < 10 ∧ c = digitChar d) := by
  intro n
  by_cases h : n < 0
  · exact ⟨'-', natChars n.natAbs, by simp [intChars, h], Or.inl rfl⟩
  · obtain ⟨d, hd, cs, hcs⟩ := natChars_head n.natAbs
    exact ⟨digitChar d, cs, by simp [intChars, h, hcs], Or.inr ⟨d, hd, rfl⟩⟩

theorem intChars_head_facts (n : Int) (rest : List Char) :
    isJsonWs (curChar (intChars n ++ rest)) = false ∧
    curChar (intChars n ++ rest) ≠ ']' ∧ curChar (intChars n ++ rest) ≠ '}' ∧
    curChar (intChars n ++ rest) ≠ 'n' ∧ curChar (intChars n ++ rest) ≠ '\x00' ∧
    curChar (intChars n ++ rest) ≠ '{' ∧ curChar (intChars n ++ rest) ≠ '[' ∧
    curChar (intChars n ++ rest) ≠ '"' ∧ curChar (intChars n ++ rest) ≠ 't' ∧
    curChar (intChars n ++ rest) ≠ 'f' ∧ curChar (intChars n ++ rest) ≠ ',' := by
  obtain ⟨c, cs, hc, hspec⟩ := intChars_head n
  rw [hc]
  simp only [List.cons_append, curChar, List.headD]
  rcases hspec with rfl | ⟨d, hd, rfl⟩
  · exact ⟨by decide, by decide, by decide, by decide, by decide, by decide, by decide,
      by decide, by decide, by decide, by decide⟩
  · have h := digitChar_facts d hd
    exact ⟨h.1, h.2.1, h.2.2.1, h.2.2.2.1, h.2.2.2.2.1, h.2.2.2.2.2.1, h.2.2.2.2.2.2.1,
      h.2.2.2.2.2.2.2.1, h.2.2.2.2.2.2.2.2.1, h.2.2.2.2.2.2.2.2.2.1,
      h.2.2.2.2.2.2.2.2.2.2.1⟩

theorem parse_number_intChars (n : Int) (rest : List Char)
    (h : isDigit (curChar rest) = false) :
    parse_number (intChars n ++ rest) = some (n, rest) := by
  by_cases hn : n < 0
  · simp only [intChars, if_pos hn, List.cons_append, List.nil_append]
    simp only [parse_number, curChar, List.headD, if_pos, List.tail_cons]
    rw [takeDigitsNat_natChars n.natAbs rest h]
    show some (-((n.natAbs : Nat) : Int), rest) = some (n, rest)
    have heq : -((n.natAbs : Nat) : Int) = n := by omega
    rw [heq]
  · simp only [intChars, if_neg hn, List.nil_append]
    obtain ⟨d, hd, cs, hcs⟩ := natChars_head n.natAbs
    have hne : curChar (natChars n.natAbs ++ rest) ≠ '-' := by
      rw [hcs]
      simpa [curChar] using (digitChar_facts d hd).2.2.2.2.2.2.2.2.2.2.2
    simp only [parse_number, if_neg hne]
    rw [takeDigitsNat_natChars n.natAbs rest h]
    show some (((n.natAbs : Nat) : Int), rest) = some (n, rest)
    have heq : ((n.natAbs : Nat) : Int) = n := by omega
    rw [heq]

/-! ## String codec lemmas -/

theorem length_le_flatMap {α β : Type} (f : α → List β) (h : ∀ a, 1 ≤ (f a).length) :
    ∀ l : List α, l.length ≤ (l.flatMap f).length := by
  intro l
  induction l with
  | nil => simp
  | cons a l ih =>
    simp only [List.flatMap_cons, List.length_append, List.length_cons]
    have := h a
    omega

theorem escape_char_length (c : Char) : 1 ≤ (escape_char c).length := by
  simp only [escape_char]
  repeat' split
  all_goals simp

theorem skipTill_backslash (t : List Char) :
    skipTillEscapeOrQuote ('\\' :: t) = some ([], '\\', t) := rfl

theorem skipTill_quote (t : List Char) :
    skipTillEscapeOrQuote ('"' :: t) = some ([], '"', t) := rfl

theorem skipTill_quote_append : ∀ (x r : List Char),
    skipTillEscapeOrQuote (x ++ '"' :: r) ≠ none := by
  intro x
  induction x with
  | nil => intro r; simp [skipTill_quote]
  | cons c cs ih =>
    intro r
    by_cases h : c = '"' ∨ c = '\\'
    · simp [skipTillEscapeOrQuote, h]
    · simp only [List.cons_append, skipTillEscapeOrQuote, if_neg h]
      cases hx : skipTillEscapeOrQuote (cs ++ '"' :: r) with
      | none => exact absurd hx (ih r)
      | some v => simp

theorem readStrLoop_cons (fuel : Nat) (acc : List Char) (ctx : Ctx) (c : Char)
    (l : List Char) (hc : ¬(c = '"' ∨ c = '\\')) (hl : skipTillEscapeOrQuote l ≠ none) :
    readStrLoop (fuel + 1) acc ctx (c :: l) = readStrLoop (fuel + 1) (acc ++ [c]) ctx l := by
  obtain ⟨span, stop, rest, hs⟩ : ∃ a b t, skipTillEscapeOrQuote l = some (a, b, t) := by
    cases hx : skipTillEscapeOrQuote l with
    | none => exact absurd hx hl
    | some v =>
      obtain ⟨a, b, t⟩ := v
      exact ⟨a, b, t, rfl⟩
  have hlne : l.isEmpty = false := by
    cases l with
    | nil => simp [skipTillEscapeOrQuote] at hs
    | cons _ _ => rfl
  have hstep : skipTillEscapeOrQuote (c :: l) = some (c :: span, stop, rest) := by
    simp only [skipTillEscapeOrQuote, if_neg hc, hs]
  simp only [readStrLoop, List.isEmpty_cons, hlne, hstep, hs, Bool.false_eq_true,
    if_false, List.append_assoc, List.cons_append, List.nil_append]

theorem handle_escaped_quote (v : List Char) (ctx : Ctx) (t : List Char) :
    handle_escaped v ctx ('"' :: t) = (v ++ ['"'], ctx, t) := rfl

theorem handle_escaped_backslash (v : List Char) (ctx : Ctx) (t : List Char) :
    handle_escaped v ctx ('\\' :: t) = (v ++ ['\\'], ctx, t) := rfl

theorem handle_escaped_b (v : List Char) (ctx : Ctx) (t : List Char) :
    handle_escaped v ctx ('b' :: t) = (v ++ ['\x08'], ctx, t) := rfl

theorem handle_escaped_f (v : List Char) (ctx : Ctx) (t : List Char) :
    handle_escaped v ctx ('f' :: t) = (v ++ ['\x0C'], ctx, t) := rfl

theorem handle_escaped_n (v : List Char) (ctx : Ctx) (t : List Char) :
    handle_escaped v ctx ('n' :: t) = (v ++ ['\n'], ctx, t) := rfl

theorem handle_escaped_r (v : List Char) (ctx : Ctx) (t : List Char) :
    handle_escaped v ctx ('r' :: t) = (v ++ ['\x0D'], ctx, t) := rfl

theorem handle_escaped_t (v : List Char) (ctx : Ctx) (t : List Char) :
    handle_escaped v ctx ('t' :: t) = (v ++ ['\t'], ctx, t) := rfl

theorem readStrLoop_escape_step (f : Nat) (acc : List Char) (ctx : Ctx)
    (hctx : ctx.error = none) (code c : Char) (t : List Char)
    (hdec : handle_escaped acc ctx (code :: t) = (acc ++ [c], ctx, t)) :
    readStrLoop (f + 1) acc ctx ('\\' :: code :: t) = readStrLoop f (acc ++ [c]) ctx t := by
  simp only [readStrLoop, List.isEmpty_cons, Bool.false_eq_true, if_false]
  rw [skipTill_backslash]
  dsimp only
  rw [if_neg (by decide : ¬('\\' : Char) = '"')]
  simp only [List.append_nil]
  rw [hdec]
  simp [hctx]

theorem readStrLoop_escape_inverse : ∀ (s : List Char) (fuel : Nat) (acc : List Char)
    (ctx : Ctx), ctx.error = none → ∀ (rest : List Char), s.length < fuel →
    readStrLoop fuel acc ctx (s.flatMap escape_char ++ '"' :: rest) = (acc ++ s, ctx, rest) := by
  intro s
  induction s with
  | nil =>
    intro fuel acc ctx _ rest hf
    match fuel, hf with
    | f + 1, _ =>
      simp only [List.flatMap_nil, List.nil_append, readStrLoop, List.isEmpty_cons,
        Bool.false_eq_true, if_false]
      rw [skipTill_quote]
      simp
  | cons c s ih =>
    intro fuel acc ctx hctx rest hf
    match fuel, hf with
    | f + 1, hf =>
      have hf' : s.length < f := by simp at hf; omega
      by_cases hc : c = '"' ∨ c = '\\' ∨ c = '\x08' ∨ c = '\x0C' ∨ c = '\n' ∨
          c = '\x0D' ∨ c = '\t'
      · have step : ∀ code : Char,
            handle_escaped acc ctx (code :: (s.flatMap escape_char ++ '"' :: rest)) =
              (acc ++ [c], ctx, s.flatMap escape_char ++ '"' :: rest) →
            escape_char c = ['\\', code] →
            readStrLoop (f + 1) acc ctx ((c :: s).flatMap escape_char ++ '"' :: rest) =
              (acc ++ c :: s, ctx, rest) := by
          intro code hdec hesc
          rw [List.flatMap_cons, hesc]
          simp only [List.cons_append, List.nil_append]
          rw [readStrLoop_escape_step f acc ctx hctx code c _ hdec]
          rw [ih f (acc ++ [c]) ctx hctx rest hf']
          simp
        rcases hc with rfl | rfl | rfl | rfl | rfl | rfl | rfl
        · exact step '"' (handle_escaped_quote acc ctx _) rfl
        · exact step '\\' (handle_escaped_backslash acc ctx _) rfl
        · exact step 'b' (handle_escaped_b acc ctx _) rfl
        · exact step 'f' (handle_escaped_f acc ctx _) rfl
        · exact step 'n' (handle_escaped_n acc ctx _) rfl
        · exact step 'r' (handle_escaped_r acc ctx _) rfl
        · exact step 't' (handle_escaped_t acc ctx _) rfl
      · push_neg at hc
        obtain ⟨h1, h2, h3, h4, h5, h6, h7⟩ := hc
        have hesc : escape_char c = [c] := by
          simp [escape_char, h1, h2, h3, h4, h5, h6, h7]
        rw [List.flatMap_cons, hesc]
        have hcons := readStrLoop_cons f acc ctx c (s.flatMap escape_char ++ '"' :: rest)
          (by simp [h1, h2]) (skipTill_quote_append (s.flatMap escape_char) rest)
        simp only [List.cons_append, List.nil_append] at hcons ⊢
        rw [hcons]
        rw [ih (f + 1) (acc ++ [c]) ctx hctx rest (by omega)]
        simp

theorem from_json_string_inverse (s : List Char) :
    from_json_string [] {} (to_json_string s) = (s, {}, []) := by
  have hlen : s.length < (s.flatMap escape_char ++ ['"']).length + 1 := by
    have := length_le_flatMap escape_char escape_char_length s
    simp only [List.length_append, List.length_cons, List.length_nil]
    omega
  have hinv := readStrLoop_escape_inverse s ((s.flatMap escape_char ++ ['"']).length + 1)
    [] {} rfl [] hlen
  simp only [to_json_string, from_json_string]
  rw [skip_ws_cons_not _ (by decide)]
  simp only [Option.isSome_none, Bool.false_eq_true, if_false, matchChar, reduceIte]
  simpa using hinv

/-! ## Unicode escape lemmas (C1) -/

theorem lor_mul_pow_add (x : Nat) : ∀ (k a : Nat), a < 2 ^ k →
    (x * 2 ^ k) ||| a = x * 2 ^ k + a := by
  intro k
  induction k generalizing x with
  | zero =>
    intro a ha
    have : a = 0 := Nat.lt_one_iff.mp (by simpa using ha)
    simp [this]
  | succ k ih =>
    intro a ha
    have ha2 : a / 2 < 2 ^ k := by
      have h2 : a < 2 ^ k * 2 := by rw [pow_succ] at ha; exact ha
      omega
    have hbit : x * 2 ^ (k + 1) = Nat.bit false (x * 2 ^ k) := by
      simp [Nat.bit, pow_succ]; ring
    have hmod : a % 2 = 0 ∨ a % 2 = 1 := Nat.mod_two_eq_zero_or_one a
    rcases hmod with h2 | h2
    · have hA : a = Nat.bit false (a / 2) := by simp [Nat.bit]; omega
      rw [hbit, hA, Nat.lor_bit, ih x _ ha2]
      simp [Nat.bit, pow_succ]
      omega
    · have hA : a = Nat.bit true (a / 2) := by simp [Nat.bit]; omega
      rw [hbit, hA, Nat.lor_bit, ih x _ ha2]
      simp [Nat.bit, pow_succ]
      omega

theorem lor_shift_add (x k a : Nat) (h : a < 2 ^ k) : a ||| (x <<< k) = x * 2 ^ k + a := by
  rw [Nat.lor_comm, Nat.shiftLeft_eq]
  exact lor_mul_pow_add x k a h

theorem hexUpper_spec :
    ∀ d < 16, isxdigit (hexUpper d) = true ∧ hex2dec (hexUpper d) = d := by
  decide

theorem hex4_assemble (v : Nat) (hv : v < 0x10000) :
    hex4_to_char32 (hexUpper (v / 4096 % 16)) (hexUpper (v / 256 % 16))
      (hexUpper (v / 16 % 16)) (hexUpper (v % 16)) = v := by
  have h0 : v / 4096 % 16 < 16 := Nat.mod_lt _ (by omega)
  have h1 : v / 256 % 16 < 16 := Nat.mod_lt _ (by omega)
  have h2 : v / 16 % 16 < 16 := Nat.mod_lt _ (by omega)
  have h3 : v % 16 < 16 := Nat.mod_lt _ (by omega)
  unfold hex4_to_char32
  rw [(hexUpper_spec _ h0).2, (hexUpper_spec _ h1).2, (hexUpper_spec _ h2).2,
    (hexUpper_spec _ h3).2]
  rw [lor_shift_add (v / 16 % 16) 4 (v % 16) (by omega)]
  rw [lor_shift_add (v / 256 % 16) 8 _ (by norm_num; omega)]
  rw [lor_shift_add (v / 4096 % 16) 12 _ (by norm_num; omega)]
  norm_num
  omega

theorem utf8encode_surrogate (v : Nat) (h1 : 0xD800 ≤ v) (h2 : v ≤ 0xDFFF) :
    utf8encode v = none := by
  unfold utf8encode
  rw [if_neg (by omega), if_neg (by omega), if_pos ⟨h1, h2⟩]

theorem utf8encode_some (v : Nat) (hv : v < 0x110000) (hs : ¬(0xD800 ≤ v ∧ v ≤ 0xDFFF)) :
    (utf8encode v).isSome = true := by
  unfold utf8encode
  split_ifs <;> simp

/-- C1 (amended): each `\uXXXX` escape is converted on its own — for every
code unit value `v < 0x10000`, reading the four hex digits of `v` into an
8-bit string appends the UTF-8 encoding of `v` when `v` is not a surrogate,
and fails with `unicode_escape_conversion_failure` (value and cursor
untouched) when `v` lies in the surrogate range 0xD800–0xDFFF; no combining
with a following low-surrogate escape ever happens. -/
theorem read_escaped_unicode_single_unit (value : List Char) (ctx : Ctx) (v : Nat)
    (rest : List Char) (hv : v < 0x10000) :
    read_escaped_unicode value ctx (hexUpper4 v ++ rest) =
      if 0xD800 ≤ v ∧ v ≤ 0xDFFF then
        (value, ctx.setError .unicode_escape_conversion_failure, hexUpper4 v ++ rest)
      else (value ++ (utf8encode v).getD [], ctx, rest) := by
  have h0 : v / 4096 % 16 < 16 := Nat.mod_lt _ (by omega)
  have h1 : v / 256 % 16 < 16 := Nat.mod_lt _ (by omega)
  have h2 : v / 16 % 16 < 16 := Nat.mod_lt _ (by omega)
  have h3 : v % 16 < 16 := Nat.mod_lt _ (by omega)
  simp only [hexUpper4, List.cons_append, List.nil_append, read_escaped_unicode,
    (hexUpper_spec _ h0).1, (hexUpper_spec _ h1).1, (hexUpper_spec _ h2).1,
    (hexUpper_spec _ h3).1, Bool.and_self, if_pos]
  rw [hex4_assemble v hv]
  by_cases hs : 0xD800 ≤ v ∧ v ≤ 0xDFFF
  · rw [utf8encode_surrogate v hs.1 hs.2, if_pos hs]
  · obtain ⟨bytes, hbytes⟩ := Option.isSome_iff_exists.mp (utf8encode_some v (by omega) hs)
    rw [hbytes, if_neg hs]
    simp

/-- C1 witness: the theorem applied at `v = 0x41` (`A`). -/
theorem read_escaped_unicode_single_unit_witness :
    (0x41 < 0x10000) ∧
      read_escaped_unicode [] {} (hexUpper4 0x41 ++ []) =
        (([] : List Char) ++ (utf8encode 0x41).getD [], {}, []) := by
  refine ⟨by decide, ?_⟩
  rw [read_escaped_unicode_single_unit [] {} 0x41 [] (by decide)]
  rw [if_neg (by decide)]

/-- C1 counterexample: the surrogate pair `😀` (U+1F600) read into
an 8-bit string fails with `unicode_escape_conversion_failure` at the first
escape instead of producing the UTF-8 encoding of U+1F600. -/
theorem surrogate_pair_read_fails :
    (from_json_string [] {} ("\"\\uD83D\\uDE00\"".toList)).2.1.error =
        some ErrorCode.unicode_escape_conversion_failure ∧
      (from_json_string [] {} ("\"\\uD83D\\uDE00\"".toList)).1 = [] := by
  decide

/-! ## C10: the boolean reader mutates before verifying -/

/-- C10: when the boolean reader sees `t` (resp. `f`) but the rest of the
literal does not follow, the destination has already been assigned `true`
(resp. `false`) and the call fails with a latched error. -/
theorem bool_read_assigns_before_verify :
    (∀ s : List Char, ¬ List.isPrefixOf ['r', 'u', 'e'] s →
      (from_json_bool false {} ('t' :: s)).1 = true ∧
        (from_json_bool false {} ('t' :: s)).2.1.error.isSome = true) ∧
    (∀ s : List Char, ¬ List.isPrefixOf ['a', 'l', 's', 'e'] s →
      (from_json_bool true {} ('f' :: s)).1 = false ∧
        (from_json_bool true {} ('f' :: s)).2.1.error.isSome = true) := by
  constructor
  · intro s hs
    simp only [from_json_bool]
    rw [skip_ws_cons_not _ (by decide)]
    simp [curChar, matchLit, hs, Ctx.setError]
  · intro s hs
    simp only [from_json_bool]
    rw [skip_ws_cons_not _ (by decide)]
    simp [curChar, matchLit, hs, Ctx.setError]

/-- C10 witness: the theorem applied at input `tx`. -/
theorem bool_read_assigns_before_verify_witness :
    (¬ List.isPrefixOf ['r', 'u', 'e'] ['x']) ∧
      (from_json_bool false {} ('t' :: ['x'])).1 = true ∧
      (from_json_bool false {} ('t' :: ['x'])).2.1.error.isSome = true := by
  refine ⟨by decide, ?_⟩
  exact bool_read_assigns_before_verify.1 ['x'] (by decide)

/-! ## C3: the array element pre-count does not skip nested brackets -/

/-- C3: evaluating `number_of_array_elements` just after the opening bracket
of `[[1,2,3]]` yields 3 (the comma inside the nested array is counted and the
nested closing bracket terminates the scan), not the 1 element the array has;
on `[[1,2],[3,4]]` it happens to yield the correct 2. -/
theorem number_of_array_elements_nested_eval :
    (number_of_array_elements {} ("[1,2,3]]".toList)).1 = 3 ∧
      (number_of_array_elements {} ("[1,2,3]]".toList)).2.error = none ∧
      (number_of_array_elements {} ("[1,2],[3,4]]".toList)).1 = 2 := by
  decide

/-! ## C4: the first latched error is overwritten -/

/-- C4: reading `[true,2]` into a resizeable non-emplace-backable int
container first latches `parse_number_failure`, but the unchecked element
loop goes on and the final error is `syntax_error` — the first error did not
survive (`firstError` is the ghost record of the first assignment). -/
theorem resizable_first_error_overwritten :
    (from_json_resizable_int [] {} ("[true,2]".toList)).2.1.error =
        some ErrorCode.syntax_error ∧
      (from_json_resizable_int [] {} ("[true,2]".toList)).2.1.firstError =
        some ErrorCode.parse_number_failure ∧
      ErrorCode.syntax_error ≠ ErrorCode.parse_number_failure := by
  decide

/-! ## Tuple lemmas and C5 -/

theorem skip_ws_stop (ctx : Ctx) (l : List Char) (h : isJsonWs (curChar l) = false) :
    skip_ws ctx l = (ctx, l) := by
  cases l with
  | nil => rfl
  | cons c t => exact skip_ws_cons_not ctx (by simpa [curChar] using h) t

theorem tuple_iter0_int (d : Int) (ctx : Ctx) (hctx : ctx.error = none) (n : Int)
    (rest : List Char) (hd : isDigit (curChar rest) = false)
    (hw : isJsonWs (curChar rest) = false) :
    tuple_iter0 d ctx (intChars n ++ rest) = (n, ctx, rest) := by
  have hfacts := intChars_head_facts n rest
  unfold tuple_iter0
  rw [if_neg hfacts.2.1]
  unfold from_json_int_wsh
  rw [parse_number_intChars n rest hd]
  simp [hctx, skip_ws_stop ctx rest hw]

theorem tuple_iter_int (d : Int) (ctx : Ctx) (hctx : ctx.error = none) (n : Int)
    (rest : List Char) (hd : isDigit (curChar rest) = false)
    (hw : isJsonWs (curChar rest) = false) :
    tuple_iter d ctx (',' :: (intChars n ++ rest)) = (n, ctx, rest) := by
  have hfacts := intChars_head_facts n rest
  have hcur : curChar (',' :: (intChars n ++ rest)) = ',' := rfl
  unfold tuple_iter
  rw [if_neg (by rw [hcur]; decide)]
  simp only [matchChar, reduceIte, hctx, Option.isSome_none, Bool.false_eq_true, if_false]
  rw [skip_ws_stop ctx _ hfacts.1]
  simp only [hctx, Option.isSome_none, Bool.false_eq_true, if_false]
  unfold from_json_int_wsh
  rw [parse_number_intChars n rest hd]
  simp [hctx, skip_ws_stop ctx rest hw]

theorem tuple_iter_bracket (d : Int) (ctx : Ctx) (t : List Char) :
    tuple_iter d ctx (']' :: t) = (d, ctx, ']' :: t) := by
  unfold tuple_iter
  rw [if_pos (show curChar (']' :: t) = ']' from rfl)]

/-- C5 (amended): a short array is accepted by the tuple reader — once `]`
appears, the remaining `for_each` iterations do nothing, the fields beyond
those present keep their previous values, and the closing bracket is matched
with no error (the handler produces no `expected_bracket` for short input);
the empty array `[]` likewise succeeds leaving every field unmodified. -/
theorem tuple_short_input_keeps_tail :
    (∀ (d0 d1 d2 : Int) (n : Int),
      from_json_tuple3 (d0, d1, d2) {} ('[' :: (intChars n ++ [']'])) =
        ((n, d1, d2), {}, [])) ∧
    (∀ d : Int × Int × Int, from_json_tuple3 d {} ("[]".toList) = (d, {}, [])) := by
  constructor
  · intro d0 d1 d2 n
    unfold from_json_tuple3
    rw [skip_ws_cons_not _ (by decide)]
    dsimp only
    rw [show matchChar '[' ({} : Ctx) ('[' :: (intChars n ++ [']'])) =
      (({} : Ctx), intChars n ++ [']']) from rfl]
    dsimp only
    rw [skip_ws_stop _ _ (intChars_head_facts n [']']).1]
    dsimp only
    rw [tuple_iter0_int d0 {} rfl n [']'] (by decide) (by decide)]
    dsimp only
    rw [tuple_iter_bracket d1 {} [], tuple_iter_bracket d2 {} []]
    dsimp only
    rfl
  · intro d
    obtain ⟨a, b, c⟩ := d
    rfl

/-- C5 counterexample: reading `[1]` into a three-int tuple succeeds with the
remaining fields untouched — it does not fail with `expected_bracket` as the
claim states. -/
theorem tuple_short_array_accepted :
    from_json_tuple3 (7, 8, 9) {} ("[1]".toList) = ((1, 8, 9), {}, []) ∧
      (from_json_tuple3 (7, 8, 9) {} ("[1]".toList)).2.1.error ≠
        some ErrorCode.expected_bracket := by
  decide

/-! ## C2: variant deduction -/

/-- C2: reading `{"y":5}` into `std::variant<VarA, VarB>` resolves to the
second alternative with `y = 5` whatever the variant held before; reading
`{"z":5}`, whose key belongs to neither alternative, fails with
`no_matching_variant_type`. -/
theorem variant_key_deduction :
    (∀ v0 : VarAB, from_json_variant v0 {} ("\x7b\"y\":5\x7d".toList) =
      (VarAB.b ⟨5⟩, {}, [])) ∧
    (from_json_variant (VarAB.a ⟨0⟩) {} ("\x7b\"z\":5\x7d".toList)).2.1.error =
      some ErrorCode.no_matching_variant_type := by
  constructor
  · intro v0
    cases v0 with
    | a w =>
      cases w with
      | mk k => rfl
    | b w =>
      cases w with
      | mk k => rfl
  · decide

/-! ## C6: skip_null_members suppression -/

theorem mapRest_filter (m : List (List Char × Option Int)) :
    mapRest true m =
      (m.filter (fun q => q.2.isSome)).flatMap (fun q => ',' :: write_pair q) := by
  induction m with
  | nil => rfl
  | cons p rest ih =>
    cases hp : p.2 with
    | none => simp [mapRest, List.filter_cons, hp, ih]
    | some v => simp [mapRest, List.filter_cons, hp, ih]

/-- C6 (amended): with `skip_null_members`, the object writer suppresses every
null member — the first included — via its `first` flag, emitting exactly the
non-null members joined by single commas; the map writer always emits the
first pair of a nonempty map (null or not) and suppresses only null pairs
after the first, each together with its separator, so no stray comma ever
appears. -/
theorem skip_null_members_object_vs_map :
    (∀ (p : List Char × Option Int) (m : List (List Char × Option Int)),
      to_json_map true (p :: m) =
        '{' :: (write_pair p ++
          ((m.filter (fun q => q.2.isSome)).flatMap (fun q => ',' :: write_pair q) ++ ['}']))) ∧
    (∀ v : Obj3, to_json_Obj3 true v =
      '{' :: (List.intercalate [',']
        ((([(['a'], v.a), (['b'], v.b), (['c'], v.c)].filter
          (fun q => q.2.isSome)).map (fun q => obj3_member q.1 q.2))) ++ ['}'])) := by
  constructor
  · intro p m
    simp [to_json_map, mapRest_filter]
  · intro v
    obtain ⟨a, b, c⟩ := v
    cases a <;> cases b <;> cases c <;>
      simp [to_json_Obj3, obj_write_step, List.intercalate, List.intersperse]

/-- C6 counterexample: with `skip_null_members` on, a map whose first entry
is empty is serialized with that entry (`{"a":null,"b":1}`), not without it
(`{"b":1}`) as the claim states. -/
theorem map_first_null_entry_written :
    to_json_map true [(['a'], none), (['b'], some 1)] =
      ("\x7b\"a\":null,\"b\":1\x7d".toList) ∧
      to_json_map true [(['a'], none), (['b'], some 1)] ≠
        ("\x7b\"b\":1\x7d".toList) := by
  decide

/-! ## C7: prettify indentation symmetry -/

/-- C7 (amended): with prettify on, the array and map writers restore
`ctx.indentation_level` after a nonempty body (scalar elements), but after an
empty array or empty map the level is left increased by `indentation_width`:
the decrement lives inside the nonempty branch. -/
theorem prettify_indent_symmetric_only_nonempty :
    (∀ (width : Nat) (ic : Char) (x : Int) (xs : List Int) (ctx : Ctx) (out : List Char),
      (to_json_array_int_pretty width ic (x :: xs) ctx out).2.indentation_level =
        ctx.indentation_level) ∧
    (∀ (width : Nat) (ic : Char) (p : List Char × Int) (ps : List (List Char × Int))
        (ctx : Ctx) (out : List Char),
      (to_json_map_pretty width ic (p :: ps) ctx out).2.indentation_level =
        ctx.indentation_level) ∧
    (∀ (width : Nat) (ic : Char) (ctx : Ctx) (out : List Char),
      (to_json_array_int_pretty width ic [] ctx out).2.indentation_level =
        ctx.indentation_level + width) ∧
    (∀ (width : Nat) (ic : Char) (ctx : Ctx) (out : List Char),
      (to_json_map_pretty width ic [] ctx out).2.indentation_level =
        ctx.indentation_level + width) := by
  refine ⟨?_, ?_, ?_, ?_⟩ <;> intros <;>
    simp [to_json_array_int_pretty, to_json_map_pretty]

/-- C7 counterexample: writing an empty array with prettify
(`indentation_width = 3`) leaves the context's indentation level at 3, not at
its value 0 before the call. -/
theorem prettify_empty_array_leaks_indent :
    (to_json_array_int_pretty 3 ' ' [] {} []).2.indentation_level = 3 ∧
      (to_json_array_int_pretty 3 ' ' [] {} []).2.indentation_level ≠
        ({} : Ctx).indentation_level := by
  decide

/-! ## C9: the key-extraction strategies agree -/

theorem shortScanAux_finds : ∀ (count pos : Nat) (name rest : List Char) (ctx : Ctx),
    '"' ∉ name → pos ≤ name.length → name.length - pos < count →
    shortScanAux (name ++ '"' :: rest) pos count ctx = (name, ctx, rest) := by
  intro count
  induction count with
  | zero =>
    intro pos name rest ctx _ _ h3
    omega
  | succ c ih =>
    intro pos name rest ctx h1 h2 h3
    by_cases hp : pos = name.length
    · subst hp
      unfold shortScanAux
      rw [if_pos (by rw [List.drop_left]; rfl)]
      rw [List.take_left]
      congr 1
      rw [← List.drop_drop, List.drop_left]
      rfl
    · have hlt : pos < name.length := by omega
      unfold shortScanAux
      rw [if_neg ?hcur]
      case hcur =>
        rw [List.drop_append_of_le_length (by omega),
          List.drop_eq_getElem_cons hlt]
        simp only [curChar, List.cons_append, List.headD]
        intro hEq
        exact h1 (hEq ▸ List.getElem_mem hlt)
      exact ih (pos + 1) name rest ctx h1 (by omega) (by omega)

theorem parse_unescaped_key_spec : ∀ (name : List Char), '"' ∉ name →
    ∀ (rest : List Char) (ctx : Ctx),
    parse_unescaped_key ctx (name ++ '"' :: rest) = (name, ctx, rest) := by
  intro name
  induction name with
  | nil => intro _ rest ctx; simp [parse_unescaped_key]
  | cons c cs ih =>
    intro h rest ctx
    simp only [List.mem_cons, not_or] at h
    simp [parse_unescaped_key, Ne.symm h.1, fun x => h.1 x,
      ih (by simpa using h.2) rest ctx]

/-- C9: for any escape-free declared field name within the key-length window,
the three fast key-extraction strategies (fixed span for range 0, short
forward scan for small range, bounded specialized scan for larger ranges) and
the generic unescaped-key fallback all return the same key text and leave the
cursor just past the closing quote. -/
theorem key_strategies_agree (name rest : List Char) (ctx : Ctx) (minLen range : Nat)
    (h1 : '"' ∉ name) (h2 : minLen ≤ name.length) (h3 : name.length ≤ minLen + range) :
    key_fixed_span name.length ctx (name ++ '"' :: rest) = (name, ctx, rest) ∧
    key_short_scan minLen range ctx (name ++ '"' :: rest) = (name, ctx, rest) ∧
    parse_key_cx minLen range ctx (name ++ '"' :: rest) = (name, ctx, rest) ∧
    parse_unescaped_key ctx (name ++ '"' :: rest) = (name, ctx, rest) := by
  refine ⟨?_, ?_, ?_, parse_unescaped_key_spec name h1 rest ctx⟩
  · unfold key_fixed_span
    rw [List.take_left, List.drop_left]
    simp [matchChar]
  · exact shortScanAux_finds (range + 1) minLen name rest ctx h1 h2 (by omega)
  · exact shortScanAux_finds (range + 1) minLen name rest ctx h1 h2 (by omega)

/-- C9 witness: the theorem applied to the two-character name `ab` with
`min_length 1`, `length_range 2` and trailing input `x`. -/
theorem key_strategies_agree_witness :
    key_fixed_span 2 {} (['a', 'b'] ++ '"' :: ['x']) = (['a', 'b'], {}, ['x']) ∧
    key_short_scan 1 2 {} (['a', 'b'] ++ '"' :: ['x']) = (['a', 'b'], {}, ['x']) ∧
    parse_key_cx 1 2 {} (['a', 'b'] ++ '"' :: ['x']) = (['a', 'b'], {}, ['x']) ∧
    parse_unescaped_key {} (['a', 'b'] ++ '"' :: ['x']) = (['a', 'b'], {}, ['x']) := by
  exact key_strategies_agree ['a', 'b'] ['x'] {} 1 2 (by decide) (by decide) (by decide)

/-! ## C8: write-read-write round trip -/

theorem curChar_cons (c : Char) (t : List Char) : curChar (c :: t) = c := rfl

theorem matchChar_cons_eq (c : Char) (ctx : Ctx) (t : List Char) :
    matchChar c ctx (c :: t) = (ctx, t) := by
  simp [matchChar]

theorem intChars_append_not_empty (n : Int) (r : List Char) :
    (intChars n ++ r).isEmpty = false := by
  obtain ⟨c, cs, hc, _⟩ := intChars_head n
  rw [hc]
  rfl

theorem from_json_bool_inverse (b : Bool) :
    from_json_bool false {} (to_json_bool b) = (b, {}, []) := by
  cases b <;> rfl

theorem from_json_int_inverse (n : Int) : from_json_int 0 {} (intChars n) = (n, {}, []) := by
  have hf := intChars_head_facts n []
  rw [List.append_nil] at hf
  unfold from_json_int
  rw [skip_ws_stop _ _ hf.1]
  dsimp only
  unfold from_json_int_wsh
  rw [show intChars n = intChars n ++ [] by simp]
  rw [parse_number_intChars n [] (by decide)]
  rfl

theorem ewGrow_elems : ∀ (rest : List Int) (x : Int) (acc : List Int) (fuel : Nat),
    rest.length < fuel →
    ewGrow fuel acc {} (intChars x ++ (rest.flatMap (fun y => ',' :: intChars y) ++ [']'])) =
      (acc ++ x :: rest, {}, []) := by
  intro rest
  induction rest with
  | nil =>
    intro x acc fuel hf
    match fuel, hf with
    | f + 1, _ =>
      simp only [List.flatMap_nil, List.nil_append]
      unfold ewGrow
      rw [intChars_append_not_empty]
      dsimp only
      unfold from_json_int_wsh
      rw [parse_number_intChars x [']'] (by decide)]
      dsimp only
      rw [skip_ws_stop _ _ (by decide)]
      dsimp only
      rw [if_neg (by decide : ¬curChar [']'] = ','), if_pos (by decide : curChar [']'] = ']')]
      simp
  | cons y rest ih =>
    intro x acc fuel hf
    match fuel, hf with
    | f + 1, hf =>
      simp only [List.flatMap_cons, List.cons_append, List.append_assoc]
      unfold ewGrow
      rw [intChars_append_not_empty]
      dsimp only
      unfold from_json_int_wsh
      rw [parse_number_intChars x _ (by rw [curChar_cons]; decide)]
      dsimp only
      rw [skip_ws_stop _ _ (by rw [curChar_cons]; decide)]
      dsimp only
      rw [if_pos (curChar_cons ',' _)]
      dsimp only [List.tail_cons]
      rw [skip_ws_stop _ _ (intChars_head_facts y _).1]
      dsimp only
      rw [ih y (acc ++ [x]) f (by simp at hf ⊢; omega)]
      simp

theorem from_json_emplace_int_inverse (xs : List Int) :
    from_json_emplace_int [] {} (to_json_array_int xs) = (xs, {}, []) := by
  cases xs with
  | nil => rfl
  | cons x rest =>
    unfold to_json_array_int from_json_emplace_int
    dsimp only
    rw [skip_ws_cons_not _ (by decide)]
    dsimp only
    rw [matchChar_cons_eq]
    dsimp only
    simp only [List.append_assoc]
    rw [skip_ws_stop _ _ (intChars_head_facts x _).1]
    dsimp only
    rw [if_neg (intChars_head_facts x _).2.1]
    dsimp only [ewOverwrite]
    rw [ewGrow_elems rest x [] _ ?hlen]
    case hlen =>
      have h1 := length_le_flatMap (fun y : Int => ',' :: intChars y) (fun a => by simp) rest
      simp only [List.length_append]
      omega
    rfl

theorem from_json_tuple3_inverse (t : Int × Int × Int) :
    from_json_tuple3 (0, 0, 0) {} (to_json_tuple3 t) = (t, {}, []) := by
  obtain ⟨a, b, c⟩ := t
  have e1 : to_json_tuple3 (a, b, c) =
      '[' :: (intChars a ++ (',' :: (intChars b ++ (',' :: (intChars c ++ [']']))))) := by
    simp [to_json_tuple3]
  rw [e1]
  unfold from_json_tuple3
  rw [skip_ws_cons_not _ (by decide)]
  dsimp only
  rw [matchChar_cons_eq]
  dsimp only
  rw [skip_ws_stop {} (intChars a ++ (',' :: (intChars b ++ (',' :: (intChars c ++ [']'])))))
    (intChars_head_facts a (',' :: (intChars b ++ (',' :: (intChars c ++ [']']))))).1]
  dsimp only
  rw [tuple_iter0_int 0 {} rfl a (',' :: (intChars b ++ (',' :: (intChars c ++ [']']))))
    (by rw [curChar_cons]; decide) (by rw [curChar_cons]; decide)]
  dsimp only
  rw [tuple_iter_int 0 {} rfl b (',' :: (intChars c ++ [']']))
    (by rw [curChar_cons]; decide) (by rw [curChar_cons]; decide)]
  dsimp only
  rw [tuple_iter_int 0 {} rfl c [']'] (by decide) (by decide)]
  dsimp only
  rw [matchChar_cons_eq]
  rfl

theorem from_json_VarB_loop_member (k y0 : Int) : ∀ f, 1 ≤ f →
    from_json_VarB_loop (f + 1) ⟨y0⟩ true {}
        ('"' :: 'y' :: '"' :: ':' :: (intChars k ++ ['}'])) = (⟨k⟩, {}, []) := by
  intro f hf
  obtain ⟨g, rfl⟩ : ∃ g, f = g + 1 := ⟨f - 1, by omega⟩
  unfold from_json_VarB_loop
  rw [if_neg (by rw [curChar_cons]; decide)]
  dsimp only
  rw [show parse_object_key true ({} : Ctx) ('"' :: 'y' :: '"' :: ':' :: (intChars k ++ ['}'])) =
    (['y'], {}, ':' :: (intChars k ++ ['}'])) from rfl]
  dsimp only
  rw [skip_ws_cons_not _ (by decide)]
  dsimp only
  rw [matchChar_cons_eq]
  dsimp only
  rw [skip_ws_stop _ _ (intChars_head_facts k _).1]
  dsimp only
  rw [if_pos rfl]
  unfold from_json_int_wsh
  rw [parse_number_intChars k ['}'] (by decide)]
  dsimp only
  rw [skip_ws_stop _ _ (by decide)]
  dsimp only
  rw [show from_json_VarB_loop (g + 1) ⟨k⟩ false {} ['}'] = (⟨k⟩, {}, []) from rfl]
  rfl

theorem from_json_VarB_inverse (k : Int) :
    from_json_VarB false ⟨0⟩ {} (to_json_VarB ⟨k⟩) = (⟨k⟩, {}, []) := by
  unfold to_json_VarB from_json_VarB
  dsimp only
  rw [skip_ws_cons_not _ (by decide)]
  dsimp only
  rw [matchChar_cons_eq]
  dsimp only
  rw [skip_ws_cons_not _ (by decide)]
  dsimp only
  have hlen : ('"' :: 'y' :: '"' :: ':' :: (intChars k ++ ['}'])).length =
      (intChars k).length + 5 := by simp
  rw [hlen]
  exact from_json_VarB_loop_member k 0 ((intChars k).length + 5) (by omega)

theorem from_json_nullable_int_inverse (o : Option Int) :
    from_json_nullable_int none {} (to_json_nullable_int o) = (o, {}, []) := by
  cases o with
  | none => rfl
  | some n =>
    have hf := intChars_head_facts n []
    rw [List.append_nil] at hf
    unfold from_json_nullable_int to_json_nullable_int
    rw [skip_ws_stop _ _ hf.1]
    dsimp only
    rw [if_neg hf.2.2.2.1]
    simp [from_json_int_inverse n]

/-- C8 (amended): for the embedded shapes — bool, integer, string, growable
int array, three-int tuple, the object `{y:int}`, and nullable int — reading
the writer's output back into a default-initialized destination succeeds and
recovers the value exactly, so `write(read(write(value))) == write(value)`;
the equation fails for resizeable containers without element-wise append
whose elements can themselves contain commas, where the miscounting element
pre-count makes the read fail (see the counterexample). -/
theorem write_read_write_roundtrip :
    (∀ b : Bool, from_json_bool false {} (to_json_bool b) = (b, {}, []) ∧
      to_json_bool (from_json_bool false {} (to_json_bool b)).1 = to_json_bool b) ∧
    (∀ n : Int, from_json_int 0 {} (intChars n) = (n, {}, []) ∧
      intChars (from_json_int 0 {} (intChars n)).1 = intChars n) ∧
    (∀ s : List Char, from_json_string [] {} (to_json_string s) = (s, {}, []) ∧
      to_json_string (from_json_string [] {} (to_json_string s)).1 = to_json_string s) ∧
    (∀ xs : List Int, from_json_emplace_int [] {} (to_json_array_int xs) = (xs, {}, []) ∧
      to_json_array_int (from_json_emplace_int [] {} (to_json_array_int xs)).1 =
        to_json_array_int xs) ∧
    (∀ t : Int × Int × Int, from_json_tuple3 (0, 0, 0) {} (to_json_tuple3 t) = (t, {}, []) ∧
      to_json_tuple3 (from_json_tuple3 (0, 0, 0) {} (to_json_tuple3 t)).1 =
        to_json_tuple3 t) ∧
    (∀ k : Int, from_json_VarB false ⟨0⟩ {} (to_json_VarB ⟨k⟩) = (⟨k⟩, {}, []) ∧
      to_json_VarB (from_json_VarB false ⟨0⟩ {} (to_json_VarB ⟨k⟩)).1 = to_json_VarB ⟨k⟩) ∧
    (∀ o : Option Int,
      from_json_nullable_int none {} (to_json_nullable_int o) = (o, {}, []) ∧
      to_json_nullable_int (from_json_nullable_int none {} (to_json_nullable_int o)).1 =
        to_json_nullable_int o) := by
  refine ⟨fun b => ⟨from_json_bool_inverse b, by rw [from_json_bool_inverse b]⟩,
    fun n => ⟨from_json_int_inverse n, by rw [from_json_int_inverse n]⟩,
    fun s => ⟨from_json_string_inverse s, by rw [from_json_string_inverse s]⟩,
    fun xs => ⟨from_json_emplace_int_inverse xs, by rw [from_json_emplace_int_inverse xs]⟩,
    fun t => ⟨from_json_tuple3_inverse t, by rw [from_json_tuple3_inverse t]⟩,
    fun k => ⟨from_json_VarB_inverse k, by rw [from_json_VarB_inverse k]⟩,
    fun o => ⟨from_json_nullable_int_inverse o, by rw [from_json_nullable_int_inverse o]⟩⟩

/-- C8 counterexample: for a resizeable container without element-wise append
holding nested arrays, `write([[1,2,3]])` produces `[[1,2,3]]` but reading
that text back fails (`syntax_error`, a consequence of the element pre-count
counting the nested commas), and re-writing the partially parsed value does
not reproduce the original text — `write(read(write v)) ≠ write v`. -/
theorem roundtrip_fails_nested_precount :
    to_json_array_nested [[1, 2, 3]] = "[[1,2,3]]".toList ∧
      (from_json_resizable_nested [] {} (to_json_array_nested [[1, 2, 3]])).2.1.error =
        some ErrorCode.syntax_error ∧
      to_json_array_nested
          (from_json_resizable_nested [] {} (to_json_array_nested [[1, 2, 3]])).1 ≠
        to_json_array_nested [[1, 2, 3]] := by
  decide

end Glaze
